import Mathlib

/-!
Verification development for the PO-inventory pipeline
(`backend/app/services/po_processor.py` and `backend/app/services/po_calculator.py`).

Numeric cell values are modelled as exact rationals (`ℚ`); the pipeline's
arithmetic on the inputs involved here is exact, and every residual
NaN/Infinity is replaced by `0` by the code itself, so `ℚ` is a faithful
carrier.  `numpy.ceil` / `astype(int)` are modelled by `ratCeil` / `ratTrunc`
(truncation toward zero), and `.round(2)` by half-even rounding `round2`.
-/

/-! ## Numeric cell coercion

Model of the per-cell numeric coercion in `POProcessor.clean_po_data`
(po_processor.py lines 203-229): fill NA with 0, upper-case, replace the
sentinels NAN, INF, -INF, NONE, NULL by "0", strip every character except
digits, comma, period and minus, turn commas into periods, replace the
empty string by "0", and parse as a float; a cell whose final parse fails
comes out as 0 (the source's column-level exception handler sets the
column, hence the cell, to 0).
-/

/-- The decimal digit character for `d ≤ 9` (model of Python's digit output). -/
def digitChar10 (d : Nat) : Char :=
  match d with
  | 0 => '0'
  | 1 => '1'
  | 2 => '2'
  | 3 => '3'
  | 4 => '4'
  | 5 => '5'
  | 6 => '6'
  | 7 => '7'
  | 8 => '8'
  | 9 => '9'
  | _ => '0'

/-- Longest prefix of decimal digits together with the remaining suffix. -/
def spanDigits : List Char → List Char × List Char
  | [] => ([], [])
  | c :: cs =>
    if c.isDigit then
      let p := spanDigits cs
      (c :: p.1, p.2)
    else ([], c :: cs)

/-- Value of a list of decimal digit characters, read left to right. -/
def digitsToNat (cs : List Char) : Nat :=
  cs.foldl (fun a c => 10 * a + (c.toNat - 48)) 0

/-- Strip one optional leading minus sign. -/
def splitSign (cs : List Char) : Bool × List Char :=
  match cs with
  | [] => (false, [])
  | c :: rest => if c = '-' then (true, rest) else (false, c :: rest)

/-- Model of Python `float(s)` on strings made of digits, `.` and `-` only
(the only characters that survive the stripping step): an optional leading
minus, then digits with at most one decimal point and at least one digit;
anything else fails. -/
def parseFloatChars (cs : List Char) : Option ℚ :=
  let sp := splitSign cs
  let p1 := spanDigits sp.2
  match p1.2 with
  | [] =>
    if p1.1.isEmpty then none
    else some (if sp.1 then -(digitsToNat p1.1 : ℚ) else (digitsToNat p1.1 : ℚ))
  | c :: rest2 =>
    if c = '.' then
      let p2 := spanDigits rest2
      if p2.2.isEmpty && !(p1.1.isEmpty && p2.1.isEmpty) then
        let v : ℚ := Rat.divInt (digitsToNat p1.1 * 10 ^ p2.1.length + digitsToNat p2.1)
          (10 ^ p2.1.length)
        some (if sp.1 then -v else v)
      else none
    else none

/-- The sentinel strings replaced by "0" (after upper-casing). -/
def sentinelStrings : List (List Char) :=
  [['N', 'A', 'N'], ['I', 'N', 'F'], ['-', 'I', 'N', 'F'],
   ['N', 'O', 'N', 'E'], ['N', 'U', 'L', 'L']]

/-- Characters kept by the stripping regex `[^\d.,-]`. -/
def keepNumericChar (c : Char) : Bool :=
  c.isDigit || c == '.' || c == ',' || c == '-'

/-- Decimal-separator normalisation: commas become periods. -/
def commaToPeriod (c : Char) : Char := if c = ',' then '.' else c

/-- The string-rewriting part of the coercion: upper-case, sentinel match,
strip, comma-to-period, empty-to-"0". -/
def coerceChars (cs : List Char) : List Char :=
  let u := cs.map Char.toUpper
  if sentinelStrings.contains u then ['0']
  else
    let stripped := (u.filter keepNumericChar).map commaToPeriod
    if stripped.isEmpty then ['0'] else stripped

/-- Per-cell numeric coercion: the parse of the rewritten string, with any
parse failure coming out as 0. -/
def coerceNumeric (s : String) : ℚ :=
  (parseFloatChars (coerceChars s.data)).getD 0

/-! ## Rendering a coerced value back to a string

Re-applying the coercion goes through the string rendering of the numeric
value (`astype(str)` on a numeric column).  In the exact-rational model every
coerced value is a finite decimal, rendered in plain positional notation with
a decimal point (`str(5.0) = "5.0"` style). -/

/-- Exactly `k` decimal digit characters for `F < 10 ^ k`, most significant
first (leading zeros kept). -/
def padDigitChars : Nat → Nat → List Char
  | 0, _ => []
  | k + 1, F => digitChar10 (F / 10 ^ k) :: padDigitChars k (F % 10 ^ k)

/-- Minimal decimal digit string of a natural number. -/
def natChars (n : Nat) : List Char :=
  if n = 0 then ['0'] else padDigitChars (Nat.digits 10 n).length n

/-- Plain decimal rendering of a rational whose denominator is a power of
ten divisor (every coerced value is of this shape); other rationals never
arise from the coercion and render as "0". -/
def renderNum (q : ℚ) : String :=
  let d := q.den
  if d ∣ 10 ^ d then
    let m := q.num.natAbs * (10 ^ d / d)
    let sgn : List Char := if q.num < 0 then ['-'] else []
    String.mk (sgn ++ (natChars (m / 10 ^ d) ++ '.' :: padDigitChars d (m % 10 ^ d)))
  else "0"

/-! ## Rows and the normalizer -/

/-- Trim of leading and trailing whitespace (model of `str.strip()`). -/
def trimChars (cs : List Char) : List Char :=
  ((cs.dropWhile Char.isWhitespace).reverse.dropWhile Char.isWhitespace).reverse

/-- Upper-casing of a string, character by character (model of `str.upper()`). -/
def upperStr (s : String) : String := String.mk (s.data.map Char.toUpper)

/-- A raw input row: every cell is a string, as produced by ingestion. -/
structure RawRow where
  brand : String
  sku : String
  stok : String
  dailySales : String
  maxDailySales : String
  leadTime : String
  maxLeadTime : String
  minOrder : String
  sedangPO : String
  hpp : String
deriving DecidableEq

/-- A normalized row: numeric fields coerced, contribution attached,
`Lead Time Sedang PO` defaulted to 5, reference flag initialised. -/
structure CleanRow where
  brand : String
  sku : String
  stok : ℚ
  dailySales : ℚ
  maxDailySales : ℚ
  leadTime : ℚ
  maxLeadTime : ℚ
  minOrder : ℚ
  sedangPO : ℚ
  hpp : ℚ
  contributionPct : ℚ
  contribFrac : ℚ
  leadTimeSedangPO : ℚ
  isInPadang : Nat
deriving DecidableEq

/-- Column-coercion stage of `POProcessor.clean_po_data`: brand trimmed,
every quantity/cost column coerced, contribution percentage and ratio
attached, `Lead Time Sedang PO` defaulted to 5. -/
def coerceRow (pct : ℚ) (r : RawRow) : CleanRow :=
  { brand := String.mk (trimChars r.brand.data)
    sku := r.sku
    stok := coerceNumeric r.stok
    dailySales := coerceNumeric r.dailySales
    maxDailySales := coerceNumeric r.maxDailySales
    leadTime := coerceNumeric r.leadTime
    maxLeadTime := coerceNumeric r.maxLeadTime
    minOrder := coerceNumeric r.minOrder
    sedangPO := coerceNumeric r.sedangPO
    hpp := coerceNumeric r.hpp
    contributionPct := pct
    contribFrac := pct / 100
    leadTimeSedangPO := 5
    isInPadang := 0 }

/-- One entry of the reference ("Padang") sales table. -/
structure RefEntry where
  sku : String
  dailySales : ℚ
  maxDailySales : ℚ
deriving DecidableEq

/-- The self-sufficient stores exempt from the reference override. -/
def exemptStores : List String := ["PADANG", "SOETA", "BALIKPAPAN"]

/-- `needs_padang_override = (store not in exempt) or (contribution_pct < 100)`
from `POProcessor.clean_po_data`. -/
def needsPadangOverride (location : String) (pct : ℚ) : Bool :=
  !(exemptStores.contains (upperStr location)) || decide (pct < 100)

/-- Reference-override stage of `POProcessor.clean_po_data`: flag rows whose
SKU occurs in the reference table, return early when the override is not
needed or no reference data is present, and otherwise left-join on SKU,
replacing the sales figures of flagged rows by the reference values scaled
by the contribution ratio. -/
def procApplyPadang (location : String) (pct : ℚ) (padang : Option (List RefEntry))
    (r : CleanRow) : List CleanRow :=
  let isIn : Nat :=
    match padang with
    | some t => if t.any (fun e => e.sku == r.sku) then 1 else 0
    | none => 0
  let r1 := { r with isInPadang := isIn }
  if !(needsPadangOverride location pct) then [r1]
  else
    match padang with
    | none => [r1]
    | some t =>
      let ms := t.filter (fun e => e.sku == r.sku)
      if ms.isEmpty then [r1]
      else ms.map (fun e =>
        { r1 with dailySales := e.dailySales * (pct / 100)
                  maxDailySales := e.maxDailySales * (pct / 100) })

/-- Reference-override stage of `clean_po_data` in po_calculator.py: no
exemption rule there; whenever a reference table is supplied the rows are
left-joined on SKU and flagged rows get the scaled reference sales. -/
def calcApplyPadang (cf : ℚ) (t : List RefEntry) (r : CleanRow) : List CleanRow :=
  let ms := t.filter (fun e => e.sku == r.sku)
  if ms.isEmpty then [{ r with isInPadang := 0 }]
  else ms.map (fun e =>
    { r with isInPadang := 1
             dailySales := e.dailySales * cf
             maxDailySales := e.maxDailySales * cf })

/-- The calculator normalizer's reference join over a whole row set. -/
def calcNormalizeRef (cf : ℚ) (t : List RefEntry) (rows : List CleanRow) : List CleanRow :=
  rows.flatMap (calcApplyPadang cf t)

/-! ## Supplier resolution (`merge_with_suppliers`) -/

/-- A supplier-catalog record (brand, store, and supplier payload fields). -/
structure Supplier where
  namaBrand : String
  namaStore : String
  idSupplier : String
  namaSupplier : String
deriving DecidableEq

/-- The designated primary store of the priority pass. -/
def padangStoreName : String := "Miss Glam Padang"

/-- The priority subset of the catalog. -/
def prioritySuppliers (sup : List Supplier) : List Supplier :=
  sup.filter (fun s => s.namaStore == padangStoreName)

/-- The fallback subset of the catalog. -/
def otherSuppliers (sup : List Supplier) : List Supplier :=
  sup.filter (fun s => !(s.namaStore == padangStoreName))

/-- Helper of `dedupByBrand`: keep a supplier only when its brand has not
been seen yet. -/
def dedupByBrandAux (seen : List String) : List Supplier → List Supplier
  | [] => []
  | s :: rest =>
    if seen.contains s.namaBrand then dedupByBrandAux seen rest
    else s :: dedupByBrandAux (s.namaBrand :: seen) rest

/-- `drop_duplicates(subset="Nama Brand")`: one entry per brand, first
occurrence wins. -/
def dedupByBrand (l : List Supplier) : List Supplier := dedupByBrandAux [] l

/-- Supplier resolution for one brand: every matching priority supplier is
attached (left-join semantics), and only brands with no priority match get
the first-occurring fallback supplier, or nothing. -/
def resolveRow (sup : List Supplier) (brand : String) : List (Option Supplier) :=
  let ps := (prioritySuppliers sup).filter (fun s => s.namaBrand == brand)
  if ps.isEmpty then
    [(dedupByBrand (otherSuppliers sup)).find? (fun s => s.namaBrand == brand)]
  else ps.map some

/-- `merge_with_suppliers` over a row set. -/
def mergeWithSuppliers (rows : List CleanRow) (sup : List Supplier) :
    List (CleanRow × Option Supplier) :=
  rows.flatMap (fun r => (resolveRow sup r.brand).map (fun o => (r, o)))

/-! ## Metrics engine (`calculate_inventory_metrics`) -/

/-- Floor of a rational (computable; agrees with `Int.floor`). -/
def ratFloor (q : ℚ) : ℤ := q.num / (q.den : ℤ)

/-- Ceiling of a rational (model of `numpy.ceil`). -/
def ratCeil (q : ℚ) : ℤ := -(ratFloor (-q))

/-- Truncation toward zero (model of `astype(int)` on a float value). -/
def ratTrunc (q : ℚ) : ℤ := if q < 0 then ratCeil q else ratFloor q

/-- Round-half-even to an integer (model of `numpy.round`). -/
def roundHalfEven (q : ℚ) : ℤ :=
  if q - (ratFloor q : ℚ) = 1 / 2 then
    (if 2 ∣ ratFloor q then ratFloor q else ratFloor q + 1)
  else ratFloor (q + 1 / 2)

/-- Round to two decimal places (model of `.round(2)`). -/
def round2 (q : ℚ) : ℚ := (roundHalfEven (q * 100) : ℚ) / 100

/-- Numeric inputs of the metrics engine for one row. -/
structure MetricsIn where
  stok : ℚ
  dailySales : ℚ
  maxDailySales : ℚ
  leadTime : ℚ
  maxLeadTime : ℚ
  sedangPO : ℚ
  hpp : ℚ
  leadTimeSedangPO : ℚ
  minOrder : ℚ
deriving DecidableEq

/-- `Safety stock = ceil(maxDailySales * maxLeadTime - dailySales * leadTime)`. -/
def safetyStock (r : MetricsIn) : ℤ :=
  ratCeil (r.maxDailySales * r.maxLeadTime - r.dailySales * r.leadTime)

/-- `Reorder point = ceil(dailySales * leadTime + safetyStock)`. -/
def reorderPoint (r : MetricsIn) : ℤ :=
  ratCeil (r.dailySales * r.leadTime + (safetyStock r : ℚ))

/-- `Stock cover 30 days = ceil(dailySales * 30)`. -/
def stockCover30 (r : MetricsIn) : ℤ := ratCeil (r.dailySales * 30)

/-- `current_stock_days_cover = stock / dailySales` when `dailySales > 0`, else 0. -/
def currentDaysCover (r : MetricsIn) : ℚ :=
  if 0 < r.dailySales then r.stok / r.dailySales else 0

/-- `is_open_po = 1` when `current_stock_days_cover < 30` and
`stock <= reorder point`, else 0. -/
def isOpenPO (r : MetricsIn) : Nat :=
  if currentDaysCover r < 30 ∧ r.stok ≤ (reorderPoint r : ℚ) then 1 else 0

/-- `initial_qty_po`: stock-cover shortfall when the row is open, clipped at
0 and cast to integer. -/
def initialQtyPO (r : MetricsIn) : ℤ :=
  ratTrunc (max 0 (if isOpenPO r = 1
    then (stockCover30 r : ℚ) - r.stok - r.sedangPO else 0))

/-- `emergency_po_qty`: the on-order branch or the ceil branch, clipped at 0
and cast to integer. -/
def emergencyPOQty (r : MetricsIn) : ℤ :=
  ratTrunc (max 0 (if 0 < r.sedangPO
    then max 0 ((r.leadTimeSedangPO - currentDaysCover r) * r.dailySales)
    else (ratCeil ((r.maxLeadTime - currentDaysCover r) * r.dailySales) : ℚ)))

/-- `updated_regular_po_qty = max 0 (initial - emergency)`. -/
def updatedRegularPOQty (r : MetricsIn) : ℤ :=
  max 0 (initialQtyPO r - emergencyPOQty r)

/-- `final_updated_regular_po_qty`: the minimum-order bump, cast to integer. -/
def finalRegularPOQty (r : MetricsIn) : ℤ :=
  if 0 < updatedRegularPOQty r ∧ ((updatedRegularPOQty r : ℚ) < r.minOrder)
  then ratTrunc r.minOrder
  else updatedRegularPOQty r

/-- `emergency_po_cost = round(emergency_po_qty * HPP, 2)`. -/
def emergencyPOCost (r : MetricsIn) : ℚ := round2 ((emergencyPOQty r : ℚ) * r.hpp)

/-- `final_updated_regular_po_cost = round(final_updated_regular_po_qty * HPP, 2)`. -/
def finalRegularPOCost (r : MetricsIn) : ℚ :=
  round2 ((finalRegularPOQty r : ℚ) * r.hpp)

/-- All computed metrics of one row. -/
structure MetricsOut where
  safetyStockV : ℤ
  reorderPointV : ℤ
  stockCover30V : ℤ
  currentDaysCoverV : ℚ
  isOpenPOV : Nat
  initialQtyPOV : ℤ
  emergencyPOQtyV : ℤ
  updatedRegularPOQtyV : ℤ
  finalRegularPOQtyV : ℤ
  emergencyPOCostV : ℚ
  finalRegularPOCostV : ℚ
deriving DecidableEq

/-- The metrics engine applied to one row. -/
def metricsAll (r : MetricsIn) : MetricsOut :=
  { safetyStockV := safetyStock r
    reorderPointV := reorderPoint r
    stockCover30V := stockCover30 r
    currentDaysCoverV := currentDaysCover r
    isOpenPOV := isOpenPO r
    initialQtyPOV := initialQtyPO r
    emergencyPOQtyV := emergencyPOQty r
    updatedRegularPOQtyV := updatedRegularPOQty r
    finalRegularPOQtyV := finalRegularPOQty r
    emergencyPOCostV := emergencyPOCost r
    finalRegularPOCostV := finalRegularPOCost r }

/-- The numeric fields a normalized row feeds into the metrics engine. -/
def rowMetricsInput (r : CleanRow) : MetricsIn :=
  { stok := r.stok
    dailySales := r.dailySales
    maxDailySales := r.maxDailySales
    leadTime := r.leadTime
    maxLeadTime := r.maxLeadTime
    sedangPO := r.sedangPO
    hpp := r.hpp
    leadTimeSedangPO := r.leadTimeSedangPO
    minOrder := r.minOrder }

/-! ## Ingestion (`read_csv_file` and `process_files`) -/

/-- The two delimiters tried for text files. -/
inductive Delim
  | comma
  | semicolon
deriving DecidableEq

/-- The three text encodings tried for text files. -/
inductive TextEnc
  | utf8
  | latin1
  | cp1252
deriving DecidableEq

/-- The fixed ordered list of (delimiter, encoding) pairs of `read_csv_file`. -/
def formatsToTry : List (Delim × TextEnc) :=
  [(.comma, .utf8), (.semicolon, .utf8),
   (.comma, .latin1), (.semicolon, .latin1),
   (.comma, .cp1252), (.semicolon, .cp1252)]

/-- A delimited text file, abstracted as the outcome of attempting each
(delimiter, encoding) combination: `none` is a decoding or syntax error,
`some rows` a successful parse (the parsing itself is library code). -/
structure SourceFile where
  attempt : Delim → TextEnc → Option (List RawRow)

/-- The retry loop of `read_csv_file`: try each combination in order, skip
errors and empty row-sets, return the first non-empty parse. -/
def tryFormats (f : SourceFile) : List (Delim × TextEnc) → Option (List RawRow)
  | [] => none
  | fmt :: rest =>
    match f.attempt fmt.1 fmt.2 with
    | some rows => if rows.isEmpty then tryFormats f rest else some rows
    | none => tryFormats f rest

/-- `read_csv_file`: `none` is the unreadable-file failure. -/
def readCsvFile (f : SourceFile) : Option (List RawRow) := tryFormats f formatsToTry

/-- One fully processed output row: the resolved row and its metrics. -/
abbrev ProcRow := (CleanRow × Option Supplier) × MetricsOut

/-- The per-file pipeline of `process_files`: coerce, apply the reference
override, resolve suppliers, compute metrics. -/
def processFile (location : String) (pct : ℚ) (padang : Option (List RefEntry))
    (sup : List Supplier) (rows : List RawRow) : List ProcRow :=
  let cleaned := (rows.map (coerceRow pct)).flatMap (procApplyPadang location pct padang)
  (mergeWithSuppliers cleaned sup).map (fun pr => (pr, metricsAll (rowMetricsInput pr.1)))

/-- The per-file error message recorded for an unreadable or empty file. -/
def readFailMsg (name : String) : String := name ++ ": Failed to read or empty"

/-- The batch loop of `process_files`: each file is read and processed
independently; a file whose read fails contributes an error record instead
of data.  Store-name extraction and contribution lookup are passed in as
functions of the filename. -/
def processFiles (locOf : String → String) (pctOf : String → ℚ)
    (padang : Option (List RefEntry)) (sup : List Supplier)
    (files : List (String × SourceFile)) : List (String × List ProcRow) × List String :=
  files.foldr
    (fun nf acc =>
      match readCsvFile nf.2 with
      | some rows =>
        ((nf.1, processFile (locOf nf.1) (pctOf nf.1) padang sup rows) :: acc.1, acc.2)
      | none => (acc.1, readFailMsg nf.1 :: acc.2))
    ([], [])

/-! ## Concrete example rows and files used by claim instances -/

/-- The end-to-end scenario row of the spec (section 8). -/
def endToEndRow : MetricsIn :=
  { stok := 10, dailySales := 1, maxDailySales := 2, leadTime := 5, maxLeadTime := 10,
    sedangPO := 0, hpp := 10000, leadTimeSedangPO := 5, minOrder := 5 }

/-- A scenario family whose pre-minimum regular quantity is 2 regardless of
the minimum order quantity `mo`. -/
def minOrderScenarioRow (mo : ℚ) : MetricsIn :=
  { stok := 27, dailySales := 1, maxDailySales := 1, leadTime := 27, maxLeadTime := 30,
    sedangPO := 1, hpp := 0, leadTimeSedangPO := 5, minOrder := mo }

/-- The scenario with a fractional minimum order quantity (11/2, e.g. from
the cell "5,5"). -/
def fracMinOrderRow : MetricsIn := minOrderScenarioRow (11 / 2)

/-- The scenario with an integral minimum order quantity of 7. -/
def intMinOrderRow : MetricsIn := minOrderScenarioRow 7

/-- A row sitting exactly on the 30-day cover boundary. -/
def boundary30Row : MetricsIn :=
  { stok := 30, dailySales := 1, maxDailySales := 1, leadTime := 1, maxLeadTime := 1,
    sedangPO := 0, hpp := 1, leadTimeSedangPO := 5, minOrder := 1 }

/-- A row with zero daily sales. -/
def zeroSalesRow : MetricsIn :=
  { stok := 10, dailySales := 0, maxDailySales := 0, leadTime := 0, maxLeadTime := 0,
    sedangPO := 0, hpp := 0, leadTimeSedangPO := 5, minOrder := 3 }

/-- A raw row whose stock cell carries a minus sign. -/
def minusStockRow : RawRow :=
  { brand := "B", sku := "1", stok := "-5", dailySales := "0", maxDailySales := "0",
    leadTime := "0", maxLeadTime := "0", minOrder := "0", sedangPO := "0", hpp := "0" }

/-- A raw row of plain digit cells. -/
def plainDigitsRow : RawRow :=
  { brand := "B", sku := "1", stok := "10", dailySales := "1", maxDailySales := "2",
    leadTime := "5", maxLeadTime := "10", minOrder := "5", sedangPO := "0", hpp := "10000" }

/-- A reference-sales entry for SKU "1". -/
def refEntryPad : RefEntry := { sku := "1", dailySales := 3, maxDailySales := 4 }

/-- A reference table holding SKU "1" once. -/
def refTablePad : List RefEntry := [refEntryPad]

/-- A reference table holding SKU "1" twice. -/
def dupRefTable : List RefEntry := [refEntryPad, refEntryPad]

/-- A concrete normalized row with SKU "1" and brand "B". -/
def skuOneRow : CleanRow :=
  { brand := "B", sku := "1", stok := 0, dailySales := 2, maxDailySales := 2,
    leadTime := 0, maxLeadTime := 0, minOrder := 0, sedangPO := 0, hpp := 0,
    contributionPct := 100, contribFrac := 1, leadTimeSedangPO := 5, isInPadang := 0 }

/-- The same row under brand "A". -/
def brandARow : CleanRow := { skuOneRow with brand := "A" }

/-- A priority-store supplier for brand "A". -/
def supPadangA : Supplier :=
  { namaBrand := "A", namaStore := "Miss Glam Padang", idSupplier := "S1",
    namaSupplier := "Sup One" }

/-- A fallback supplier for brand "A". -/
def supOtherA : Supplier :=
  { namaBrand := "A", namaStore := "Miss Glam Medan", idSupplier := "S2",
    namaSupplier := "Sup Two" }

/-- A fallback supplier for brand "B". -/
def supOtherB : Supplier :=
  { namaBrand := "B", namaStore := "Miss Glam Medan", idSupplier := "S3",
    namaSupplier := "Sup Three" }

/-- A small supplier catalog exercising both resolution passes. -/
def supCatalog : List Supplier := [supPadangA, supOtherA, supOtherB]

/-- A file that parses to one row under every format combination. -/
def okFile : SourceFile := { attempt := fun _ _ => some [plainDigitsRow] }

/-- A file that fails to decode or parse under every format combination. -/
def badFile : SourceFile := { attempt := fun _ _ => none }

/-! ## Bridge lemmas for the computable floor, ceiling and truncation -/

theorem ratFloor_eq (q : ℚ) : ratFloor q = ⌊q⌋ := Rat.floor_def.symm

theorem ratCeil_eq (q : ℚ) : ratCeil q = ⌈q⌉ := by
  show -(ratFloor (-q)) = ⌈q⌉
  rw [ratFloor_eq, Int.floor_neg, neg_neg]

theorem ratTrunc_of_nonneg {q : ℚ} (h : 0 ≤ q) : ratTrunc q = ⌊q⌋ := by
  show (if q < 0 then ratCeil q else ratFloor q) = ⌊q⌋
  rw [if_neg (not_lt.mpr h), ratFloor_eq]

theorem ratTrunc_nonneg {q : ℚ} (h : 0 ≤ q) : 0 ≤ ratTrunc q := by
  rw [ratTrunc_of_nonneg h]
  exact Int.floor_nonneg.mpr h

theorem ratTrunc_intCast (m : ℤ) : ratTrunc ((m : ℚ)) = m := by
  show (if (m : ℚ) < 0 then ratCeil (m : ℚ) else ratFloor (m : ℚ)) = m
  rcases lt_or_ge ((m : ℚ)) 0 with h | h
  · rw [if_pos h, ratCeil_eq, Int.ceil_intCast]
  · rw [if_neg (not_lt.mpr h), ratFloor_eq, Int.floor_intCast]

/-! ## Claims about the metrics engine -/

/-- C5: the Open-PO flag is 1 exactly when the current days-of-cover is
below 30 and stock is at most the reorder point, is 0 otherwise, and in
particular is 0 on the boundary where the cover equals 30. -/
theorem c5_open_po_flag (r : MetricsIn) :
    (isOpenPO r = 1 ↔ currentDaysCover r < 30 ∧ r.stok ≤ (reorderPoint r : ℚ))
    ∧ (isOpenPO r = 1 ∨ isOpenPO r = 0)
    ∧ (currentDaysCover r = 30 → isOpenPO r = 0) := by
  refine ⟨?_, ?_, ?_⟩
  · simp only [isOpenPO]
    split
    · next h => simpa using h
    · next h => simpa using h
  · simp only [isOpenPO]
    split
    · exact Or.inl rfl
    · exact Or.inr rfl
  · intro h30
    simp only [isOpenPO]
    rw [if_neg]
    rintro ⟨hlt, -⟩
    rw [h30] at hlt
    exact lt_irrefl _ hlt

/-- C5 witness: at the concrete boundary row the cover is exactly 30 and
the flag is 0. -/
theorem c5_open_po_flag_witness : isOpenPO boundary30Row = 0 := by
  refine (c5_open_po_flag boundary30Row).2.2 ?_
  simp only [currentDaysCover]
  rw [if_pos]
  · norm_num [boundary30Row]
  · norm_num [boundary30Row]

/-- C9: the stock-over-sales division is guarded; zero daily sales yields a
days-of-cover of 0, and positive daily sales yields exactly stock divided
by daily sales. -/
theorem c9_days_cover_guard (r : MetricsIn) :
    (r.dailySales = 0 → currentDaysCover r = 0)
    ∧ (0 < r.dailySales → currentDaysCover r = r.stok / r.dailySales) := by
  constructor
  · intro h
    simp only [currentDaysCover]
    rw [if_neg]
    rw [h]
    exact lt_irrefl 0
  · intro h
    simp only [currentDaysCover]
    rw [if_pos h]

/-- C9 witness: the zero-sales row has days-of-cover 0. -/
theorem c9_days_cover_guard_witness : currentDaysCover zeroSalesRow = 0 :=
  (c9_days_cover_guard zeroSalesRow).1 rfl

theorem roundHalfEven_intCast (n : ℤ) : roundHalfEven ((n : ℚ)) = n := by
  simp only [roundHalfEven, ratFloor_eq, Int.floor_intCast]
  rw [if_neg (by norm_num), Int.floor_int_add]
  norm_num

theorem round2_intCast (m : ℤ) : round2 ((m : ℚ)) = (m : ℚ) := by
  simp only [round2]
  have h : ((m : ℚ)) * 100 = ((m * 100 : ℤ) : ℚ) := by push_cast; ring
  rw [h, roundHalfEven_intCast]
  push_cast
  field_simp

theorem ratTrunc_max_floor (x : ℚ) : ratTrunc (max 0 x) = ⌊max 0 x⌋ :=
  ratTrunc_of_nonneg (le_max_left 0 x)

theorem c1_end_to_end_scenario :
    metricsAll endToEndRow =
      { safetyStockV := 15, reorderPointV := 20, stockCover30V := 30,
        currentDaysCoverV := 10, isOpenPOV := 1, initialQtyPOV := 20,
        emergencyPOQtyV := 0, updatedRegularPOQtyV := 20, finalRegularPOQtyV := 20,
        emergencyPOCostV := 0, finalRegularPOCostV := 200000 } := by
  have hss : safetyStock endToEndRow = 15 := by
    simp only [safetyStock, ratCeil_eq, endToEndRow]
    norm_num
  have hrp : reorderPoint endToEndRow = 20 := by
    simp only [reorderPoint, ratCeil_eq]
    rw [hss]
    simp only [endToEndRow]
    norm_num
  have hsc : stockCover30 endToEndRow = 30 := by
    simp only [stockCover30, ratCeil_eq, endToEndRow]
    norm_num
  have hcd : currentDaysCover endToEndRow = 10 := by
    simp only [currentDaysCover, endToEndRow]
    norm_num
  have hop : isOpenPO endToEndRow = 1 := by
    simp only [isOpenPO]
    rw [hcd, hrp]
    simp only [endToEndRow]
    norm_num
  have hin : initialQtyPO endToEndRow = 20 := by
    simp only [initialQtyPO, ratTrunc_max_floor]
    rw [hop, hsc]
    simp only [endToEndRow]
    norm_num
  have hem : emergencyPOQty endToEndRow = 0 := by
    simp only [emergencyPOQty, ratTrunc_max_floor]
    rw [hcd]
    simp only [endToEndRow, ratCeil_eq]
    norm_num
  have hur : updatedRegularPOQty endToEndRow = 20 := by
    simp only [updatedRegularPOQty]
    rw [hin, hem]
    norm_num
  have hfr : finalRegularPOQty endToEndRow = 20 := by
    simp only [finalRegularPOQty]
    rw [hur]
    simp only [endToEndRow]
    norm_num
  have hec : emergencyPOCost endToEndRow = 0 := by
    simp only [emergencyPOCost]
    rw [hem]
    simp only [endToEndRow]
    have h0 : (((0 : ℤ) : ℚ)) * 10000 = (((0 : ℤ) : ℚ)) := by norm_num
    rw [h0, round2_intCast]
    norm_num
  have hfc : finalRegularPOCost endToEndRow = 200000 := by
    simp only [finalRegularPOCost]
    rw [hfr]
    simp only [endToEndRow]
    have h0 : (((20 : ℤ) : ℚ)) * 10000 = (((200000 : ℤ) : ℚ)) := by norm_num
    rw [h0, round2_intCast]
    norm_num
  simp [metricsAll, MetricsOut.mk.injEq, hss, hrp, hsc, hcd, hop, hin, hem, hur, hfr, hec, hfc]

/-- The pre-minimum regular quantity of the minimum-order scenario family is
2, for every minimum order quantity. -/
theorem updatedRegular_minOrderScenario (mo : ℚ) :
    updatedRegularPOQty (minOrderScenarioRow mo) = 2 := by
  have hss : safetyStock (minOrderScenarioRow mo) = 3 := by
    simp only [safetyStock, ratCeil_eq, minOrderScenarioRow]
    norm_num
  have hrp : reorderPoint (minOrderScenarioRow mo) = 30 := by
    simp only [reorderPoint, ratCeil_eq]
    rw [hss]
    simp only [minOrderScenarioRow]
    norm_num
  have hsc : stockCover30 (minOrderScenarioRow mo) = 30 := by
    simp only [stockCover30, ratCeil_eq, minOrderScenarioRow]
    norm_num
  have hcd : currentDaysCover (minOrderScenarioRow mo) = 27 := by
    simp only [currentDaysCover, minOrderScenarioRow]
    norm_num
  have hop : isOpenPO (minOrderScenarioRow mo) = 1 := by
    simp only [isOpenPO]
    rw [hcd, hrp]
    simp only [minOrderScenarioRow]
    norm_num
  have hin : initialQtyPO (minOrderScenarioRow mo) = 2 := by
    simp only [initialQtyPO, ratTrunc_max_floor]
    rw [hop, hsc]
    simp only [minOrderScenarioRow]
    norm_num
  have hem : emergencyPOQty (minOrderScenarioRow mo) = 0 := by
    simp only [emergencyPOQty, ratTrunc_max_floor]
    rw [hcd]
    simp only [minOrderScenarioRow, ratCeil_eq]
    norm_num
  simp only [updatedRegularPOQty]
  rw [hin, hem]
  norm_num

/-- C6 counterexample: on the fractional-minimum-order row the pre-minimum
regular quantity is strictly between 0 and the minimum order, yet the final
regular quantity (5) differs from the minimum order (11/2), refuting
"FinalRegularPOQty = MinOrder" as stated. -/
theorem c6_min_order_counterexample :
    0 < updatedRegularPOQty fracMinOrderRow
    ∧ ((updatedRegularPOQty fracMinOrderRow : ℚ) < fracMinOrderRow.minOrder)
    ∧ ((finalRegularPOQty fracMinOrderRow : ℚ) ≠ fracMinOrderRow.minOrder) := by
  have hu : updatedRegularPOQty fracMinOrderRow = 2 :=
    updatedRegular_minOrderScenario (11 / 2)
  have hmo : fracMinOrderRow.minOrder = 11 / 2 := rfl
  have hf : finalRegularPOQty fracMinOrderRow = 5 := by
    simp only [finalRegularPOQty]
    rw [hu, hmo]
    rw [if_pos ⟨by norm_num, by norm_num⟩]
    rw [ratTrunc_of_nonneg (by norm_num)]
    norm_num
  refine ⟨by rw [hu]; norm_num, by rw [hu, hmo]; norm_num, by rw [hf, hmo]; norm_num⟩

/-- C6 (amended): the final regular and emergency quantities are always
non-negative; when the pre-minimum regular quantity is strictly between 0
and the minimum order, the final regular quantity is the minimum order
truncated to an integer (in particular equal to the minimum order whenever
that is an integer), and otherwise it equals the pre-minimum regular
quantity. -/
theorem c6_po_qty_invariants (r : MetricsIn) :
    0 ≤ finalRegularPOQty r ∧ 0 ≤ emergencyPOQty r
    ∧ (0 < updatedRegularPOQty r → (updatedRegularPOQty r : ℚ) < r.minOrder →
        finalRegularPOQty r = ratTrunc r.minOrder
        ∧ ∀ m : ℤ, r.minOrder = (m : ℚ) → finalRegularPOQty r = m)
    ∧ (¬ (0 < updatedRegularPOQty r ∧ (updatedRegularPOQty r : ℚ) < r.minOrder) →
        finalRegularPOQty r = updatedRegularPOQty r) := by
  have hem : 0 ≤ emergencyPOQty r := ratTrunc_nonneg (le_max_left 0 _)
  have hur : 0 ≤ updatedRegularPOQty r := le_max_left 0 _
  refine ⟨?_, hem, ?_, ?_⟩
  · simp only [finalRegularPOQty]
    split
    · next h =>
      have hpos : (0 : ℚ) < r.minOrder :=
        lt_trans (by exact_mod_cast h.1) h.2
      exact ratTrunc_nonneg (le_of_lt hpos)
    · next h => exact hur
  · intro h1 h2
    have heq : finalRegularPOQty r = ratTrunc r.minOrder := by
      simp only [finalRegularPOQty]
      rw [if_pos ⟨h1, h2⟩]
    refine ⟨heq, ?_⟩
    intro m hm
    rw [heq, hm, ratTrunc_intCast]
  · intro h
    simp only [finalRegularPOQty]
    rw [if_neg h]

/-- C6 witness: on the integral-minimum-order scenario row the hypotheses
hold and the final regular quantity equals the minimum order, 7. -/
theorem c6_po_qty_invariants_witness : finalRegularPOQty intMinOrderRow = 7 := by
  have hu : updatedRegularPOQty intMinOrderRow = 2 := updatedRegular_minOrderScenario 7
  exact ((c6_po_qty_invariants intMinOrderRow).2.2.1
    (by rw [hu]; norm_num) (by rw [hu]; norm_num [intMinOrderRow, minOrderScenarioRow])).2
    7 (by norm_num [intMinOrderRow, minOrderScenarioRow])

/-- C2: with the SKU present in the reference table, the processor
normalizer replaces the two sales figures with the reference values scaled
by `pct / 100` exactly when `needs_override` holds, i.e. when the
upper-cased store is outside the exempt set or the contribution is below
100; in particular the override is skipped for PADANG at 100 and applied
for PADANG at 60. -/
theorem c2_reference_override (loc : String) (pct : ℚ) (t : List RefEntry) (r : CleanRow)
    (e : RefEntry) (hf : t.filter (fun x => x.sku == r.sku) = [e]) :
    ((procApplyPadang loc pct (some t) r).map (fun x => (x.dailySales, x.maxDailySales))
      = [if needsPadangOverride loc pct = true
         then (e.dailySales * (pct / 100), e.maxDailySales * (pct / 100))
         else (r.dailySales, r.maxDailySales)])
    ∧ needsPadangOverride "PADANG" 100 = false
    ∧ needsPadangOverride "PADANG" 60 = true
    ∧ (needsPadangOverride loc pct = true ↔ (upperStr loc ∉ exemptStores ∨ pct < 100)) := by
  have he : e ∈ t.filter (fun x => x.sku == r.sku) := by rw [hf]; exact List.mem_singleton.mpr rfl
  have hany : t.any (fun x => x.sku == r.sku) = true := by
    rw [List.any_eq_true]
    exact ⟨e, (List.mem_filter.mp he).1, (List.mem_filter.mp he).2⟩
  refine ⟨?_, by decide, by decide, ?_⟩
  · cases hno : needsPadangOverride loc pct with
    | false => simp [procApplyPadang, hany, hno]
    | true => simp [procApplyPadang, hany, hno, hf]
  · simp [needsPadangOverride]

/-- C2 witness: for the concrete row with SKU "1" and the one-entry
reference table, the override applies for PADANG at contribution 60. -/
theorem c2_reference_override_witness :
    ((procApplyPadang "PADANG" 60 (some refTablePad) skuOneRow).map
        (fun x => (x.dailySales, x.maxDailySales))
      = [if needsPadangOverride "PADANG" 60 = true
         then (refEntryPad.dailySales * ((60 : ℚ) / 100), refEntryPad.maxDailySales * ((60 : ℚ) / 100))
         else (skuOneRow.dailySales, skuOneRow.maxDailySales)])
    ∧ needsPadangOverride "PADANG" 100 = false
    ∧ needsPadangOverride "PADANG" 60 = true
    ∧ (needsPadangOverride "PADANG" 60 = true ↔
        (upperStr "PADANG" ∉ exemptStores ∨ (60 : ℚ) < 100)) :=
  c2_reference_override "PADANG" 60 refTablePad skuOneRow refEntryPad (by decide)

theorem length_le_flatMap {α β : Type} (f : α → List β) (l : List α)
    (h : ∀ x ∈ l, 1 ≤ (f x).length) : l.length ≤ (l.flatMap f).length := by
  induction l with
  | nil => simp
  | cons a tl ih =>
    simp only [List.flatMap_cons, List.length_append, List.length_cons]
    have ha := h a (List.mem_cons_self a tl)
    have htl := ih (fun x hx => h x (List.mem_cons_of_mem a hx))
    omega

theorem length_lt_flatMap {α β : Type} (f : α → List β) (l : List α)
    (h1 : ∀ x ∈ l, 1 ≤ (f x).length) (x : α) (hx : x ∈ l)
    (h2 : 2 ≤ (f x).length) : l.length < (l.flatMap f).length := by
  induction l with
  | nil => cases hx
  | cons a tl ih =>
    simp only [List.flatMap_cons, List.length_append, List.length_cons]
    rcases List.mem_cons.mp hx with rfl | hx'
    · have htl := length_le_flatMap f tl (fun y hy => h1 y (List.mem_cons_of_mem _ hy))
      omega
    · have ha := h1 a (List.mem_cons_self a tl)
      have htl := ih (fun y hy => h1 y (List.mem_cons_of_mem _ hy)) hx'
      omega

/-- C10: the calculator normalizer's reference join turns each row into
`max 1 k` rows, `k` the number of reference entries sharing its SKU; hence
with a reference table holding some matched SKU at least twice the output
strictly outgrows the input, and row count is preserved only for
duplicate-free reference tables. -/
theorem c10_duplicate_sku_join (cf : ℚ) (t : List RefEntry) (rows : List CleanRow)
    (r : CleanRow) (hr : r ∈ rows)
    (hdup : 2 ≤ (t.filter (fun e => e.sku == r.sku)).length) :
    (∀ rr : CleanRow,
      (calcApplyPadang cf t rr).length = max 1 (t.filter (fun e => e.sku == rr.sku)).length)
    ∧ rows.length < (calcNormalizeRef cf t rows).length := by
  have hlen : ∀ rr : CleanRow,
      (calcApplyPadang cf t rr).length = max 1 (t.filter (fun e => e.sku == rr.sku)).length := by
    intro rr
    simp only [calcApplyPadang]
    cases hm : (t.filter (fun e => e.sku == rr.sku)).isEmpty
    · have hne : t.filter (fun e => e.sku == rr.sku) ≠ [] := by
        simpa [List.isEmpty_iff] using hm
      have hpos : 1 ≤ (t.filter (fun e => e.sku == rr.sku)).length :=
        List.length_pos.mpr hne
      simp only [hm, Bool.false_eq_true, if_false, List.length_map]
      exact (max_eq_right hpos).symm
    · have hnil : t.filter (fun e => e.sku == rr.sku) = [] := by
        simpa [List.isEmpty_iff] using hm
      simp [hm, hnil]
  refine ⟨hlen, ?_⟩
  refine length_lt_flatMap _ rows (fun y _ => ?_) r hr ?_
  · rw [hlen y]
    exact le_max_left 1 _
  · rw [hlen r]
    exact le_max_of_le_right hdup

/-- C10 witness: with the two-entry reference table for SKU "1" and a
single matching row, the output has more rows than the input. -/
theorem c10_duplicate_sku_join_witness :
    (∀ rr : CleanRow,
      (calcApplyPadang 1 dupRefTable rr).length
        = max 1 (dupRefTable.filter (fun e => e.sku == rr.sku)).length)
    ∧ [skuOneRow].length < (calcNormalizeRef 1 dupRefTable [skuOneRow]).length :=
  c10_duplicate_sku_join 1 dupRefTable [skuOneRow] skuOneRow (by decide) (by decide)

theorem dedupAux_find (b : String) (l : List Supplier) :
    ∀ seen : List String, seen.contains b = false →
      (dedupByBrandAux seen l).find? (fun s => s.namaBrand == b)
        = l.find? (fun s => s.namaBrand == b) := by
  induction l with
  | nil => intro seen _; rfl
  | cons s tl ih =>
    intro seen hb
    simp only [dedupByBrandAux]
    cases hc : seen.contains s.namaBrand
    · simp only [hc, Bool.false_eq_true, if_false]
      cases hp : (s.namaBrand == b)
      · have hb' : (s.namaBrand :: seen).contains b = false := by
          have hne : ¬ b = s.namaBrand := by
            intro h
            rw [h] at hp
            simp at hp
          have hnm : b ∉ seen := by simpa using hb
          simp [List.contains_cons, hne, hnm]
        simp only [List.find?_cons, hp]
        exact ih (s.namaBrand :: seen) hb'
      · simp only [List.find?_cons, hp]
    · have hp : (s.namaBrand == b) = false := by
        cases hpp : s.namaBrand == b
        · rfl
        · rw [eq_of_beq hpp] at hc
          rw [hc] at hb
          cases hb
      simp only [hc, if_true]
      rw [ih seen hb]
      simp only [List.find?_cons, hp]

theorem dedup_find (b : String) (l : List Supplier) :
    (dedupByBrand l).find? (fun s => s.namaBrand == b)
      = l.find? (fun s => s.namaBrand == b) :=
  dedupAux_find b l [] rfl

/-- C7: every output pair of the supplier merge whose row brand has a
priority (primary-store) match carries a priority supplier of that brand
and never a fallback supplier; rows with no priority match receive exactly
the first-occurring fallback supplier of their brand, if any. -/
theorem c7_supplier_resolution (sup : List Supplier) (rows : List CleanRow)
    (pr : CleanRow × Option Supplier) (hpr : pr ∈ mergeWithSuppliers rows sup) :
    ((∃ s ∈ prioritySuppliers sup, s.namaBrand = pr.1.brand) →
      ∃ s, pr.2 = some s ∧ s ∈ prioritySuppliers sup ∧ s.namaBrand = pr.1.brand)
    ∧ ((¬ ∃ s ∈ prioritySuppliers sup, s.namaBrand = pr.1.brand) →
      pr.2 = (otherSuppliers sup).find? (fun s => s.namaBrand == pr.1.brand)) := by
  obtain ⟨r, hr, hmap⟩ := List.mem_flatMap.mp hpr
  obtain ⟨o, ho, rfl⟩ := List.mem_map.mp hmap
  simp only [resolveRow] at ho
  constructor
  · rintro ⟨s, hs, hsb⟩
    have hmem : s ∈ (prioritySuppliers sup).filter (fun x => x.namaBrand == r.brand) :=
      List.mem_filter.mpr ⟨hs, beq_iff_eq.mpr hsb⟩
    have hemp : ((prioritySuppliers sup).filter (fun x => x.namaBrand == r.brand)).isEmpty
        = false := by
      cases he : ((prioritySuppliers sup).filter (fun x => x.namaBrand == r.brand)).isEmpty
      · rfl
      · rw [List.isEmpty_iff] at he
        rw [he] at hmem
        cases hmem
    rw [hemp] at ho
    simp only [Bool.false_eq_true, if_false] at ho
    obtain ⟨s', hs', rfl⟩ := List.mem_map.mp ho
    exact ⟨s', rfl, (List.mem_filter.mp hs').1, beq_iff_eq.mp (List.mem_filter.mp hs').2⟩
  · intro hno
    have hemp : ((prioritySuppliers sup).filter (fun x => x.namaBrand == r.brand)).isEmpty
        = true := by
      cases he : ((prioritySuppliers sup).filter (fun x => x.namaBrand == r.brand)).isEmpty
      · exfalso
        have hne : (prioritySuppliers sup).filter (fun x => x.namaBrand == r.brand) ≠ [] := by
          simpa [List.isEmpty_iff] using he
        obtain ⟨s', hs'⟩ := List.exists_mem_of_ne_nil _ hne
        exact hno ⟨s', (List.mem_filter.mp hs').1, beq_iff_eq.mp (List.mem_filter.mp hs').2⟩
      · rfl
    rw [hemp] at ho
    simp only [if_true] at ho
    rw [List.mem_singleton.mp ho]
    exact dedup_find r.brand (otherSuppliers sup)

/-- C7 witness: the brand-A row matches the priority supplier and carries
it in the merged output. -/
theorem c7_supplier_resolution_witness :
    ((∃ s ∈ prioritySuppliers supCatalog, s.namaBrand = (brandARow, some supPadangA).1.brand) →
      ∃ s, (brandARow, some supPadangA).2 = some s ∧ s ∈ prioritySuppliers supCatalog
        ∧ s.namaBrand = (brandARow, some supPadangA).1.brand)
    ∧ ((¬ ∃ s ∈ prioritySuppliers supCatalog,
          s.namaBrand = (brandARow, some supPadangA).1.brand) →
      (brandARow, some supPadangA).2
        = (otherSuppliers supCatalog).find?
            (fun s => s.namaBrand == (brandARow, some supPadangA).1.brand)) :=
  c7_supplier_resolution supCatalog [brandARow] (brandARow, some supPadangA) (by decide)

theorem tryFormats_none (f : SourceFile)
    (hf : ∀ d enc, f.attempt d enc = none ∨ f.attempt d enc = some []) :
    ∀ fmts : List (Delim × TextEnc), tryFormats f fmts = none := by
  intro fmts
  induction fmts with
  | nil => rfl
  | cons fmt rest ih =>
    simp only [tryFormats]
    rcases hf fmt.1 fmt.2 with h | h
    · rw [h]
      exact ih
    · rw [h]
      simpa using ih

theorem tryFormats_first (g : SourceFile) (d : Delim) (enc : TextEnc)
    (q : List (Delim × TextEnc)) (rows : List RawRow)
    (hsome : g.attempt d enc = some rows) (hne : rows ≠ []) :
    ∀ p : List (Delim × TextEnc),
      (∀ fmt ∈ p, g.attempt fmt.1 fmt.2 = none ∨ g.attempt fmt.1 fmt.2 = some []) →
      tryFormats g (p ++ (d, enc) :: q) = some rows := by
  intro p
  induction p with
  | nil =>
    intro _
    simp only [List.nil_append, tryFormats, hsome]
    rw [if_neg (by simpa [List.isEmpty_iff] using hne)]
  | cons fmt rest ih =>
    intro hp
    simp only [List.cons_append, tryFormats]
    rcases hp fmt (List.mem_cons_self fmt rest) with h | h
    · rw [h]
      exact ih (fun x hx => hp x (List.mem_cons_of_mem fmt hx))
    · rw [h]
      simpa using ih (fun x hx => hp x (List.mem_cons_of_mem fmt hx))

theorem processFiles_foldr_acc (locOf : String → String) (pctOf : String → ℚ)
    (padang : Option (List RefEntry)) (sup : List Supplier)
    (l : List (String × SourceFile)) (acc : List (String × List ProcRow) × List String) :
    l.foldr
      (fun nf a =>
        match readCsvFile nf.2 with
        | some rows =>
          ((nf.1, processFile (locOf nf.1) (pctOf nf.1) padang sup rows) :: a.1, a.2)
        | none => (a.1, readFailMsg nf.1 :: a.2))
      acc
    = ((processFiles locOf pctOf padang sup l).1 ++ acc.1,
       (processFiles locOf pctOf padang sup l).2 ++ acc.2) := by
  induction l with
  | nil => simp [processFiles]
  | cons nf tl ih =>
    simp only [List.foldr_cons, ih]
    simp only [processFiles, List.foldr_cons]
    cases h : readCsvFile nf.2 <;> simp [h]

/-- C8: ingestion tries the fixed ordered comma/semicolon times
UTF-8/Latin-1/Windows-1252 combination list and returns the first
non-empty successful parse; a file failing every combination reads as
`none` (the unreadable-file failure) and is excluded from the batch output,
contributing only an error record, while sibling files are processed
normally. -/
theorem c8_unreadable_file_isolated (locOf : String → String) (pctOf : String → ℚ)
    (padang : Option (List RefEntry)) (sup : List Supplier)
    (pre post : List (String × SourceFile)) (name : String) (f : SourceFile)
    (hf : ∀ d enc, f.attempt d enc = none ∨ f.attempt d enc = some []) :
    readCsvFile f = none
    ∧ processFiles locOf pctOf padang sup (pre ++ (name, f) :: post)
      = ((processFiles locOf pctOf padang sup pre).1
          ++ (processFiles locOf pctOf padang sup post).1,
         (processFiles locOf pctOf padang sup pre).2
          ++ readFailMsg name :: (processFiles locOf pctOf padang sup post).2)
    ∧ (∀ (g : SourceFile) (p q : List (Delim × TextEnc)) (d : Delim) (enc : TextEnc)
        (rows : List RawRow),
        formatsToTry = p ++ (d, enc) :: q →
        (∀ fmt ∈ p, g.attempt fmt.1 fmt.2 = none ∨ g.attempt fmt.1 fmt.2 = some []) →
        g.attempt d enc = some rows → rows ≠ [] →
        readCsvFile g = some rows) := by
  have hnone : readCsvFile f = none := tryFormats_none f hf formatsToTry
  refine ⟨hnone, ?_, ?_⟩
  · simp only [processFiles, List.foldr_append, List.foldr_cons, hnone]
    rw [processFiles_foldr_acc]
    rw [processFiles_foldr_acc]
    simp [processFiles]
  · intro g p q d enc rows hsplit hp hsome hne
    simp only [readCsvFile, hsplit]
    exact tryFormats_first g d enc q rows hsome hne p hp

/-- C8 witness: a concrete batch where the middle file fails every
combination: it reads as `none`, contributes only its error record, and the
sibling files are still processed. -/
theorem c8_unreadable_file_isolated_witness :
    readCsvFile badFile = none
    ∧ processFiles (fun _ => "X") (fun _ => 100) none []
        ([("a.csv", okFile)] ++ ("bad.csv", badFile) :: [("b.csv", okFile)])
      = ((processFiles (fun _ => "X") (fun _ => 100) none [] [("a.csv", okFile)]).1
          ++ (processFiles (fun _ => "X") (fun _ => 100) none [] [("b.csv", okFile)]).1,
         (processFiles (fun _ => "X") (fun _ => 100) none [] [("a.csv", okFile)]).2
          ++ readFailMsg "bad.csv"
            :: (processFiles (fun _ => "X") (fun _ => 100) none [] [("b.csv", okFile)]).2)
    ∧ (∀ (g : SourceFile) (p q : List (Delim × TextEnc)) (d : Delim) (enc : TextEnc)
        (rows : List RawRow),
        formatsToTry = p ++ (d, enc) :: q →
        (∀ fmt ∈ p, g.attempt fmt.1 fmt.2 = none ∨ g.attempt fmt.1 fmt.2 = some []) →
        g.attempt d enc = some rows → rows ≠ [] →
        readCsvFile g = some rows) :=
  c8_unreadable_file_isolated (fun _ => "X") (fun _ => 100) none []
    [("a.csv", okFile)] [("b.csv", okFile)] "bad.csv" badFile
    (fun _ _ => Or.inl rfl)

theorem char_toNat_ofNat {n : Nat} (h : n < 55296) : (Char.ofNat n).toNat = n := by
  rw [Char.ofNat, dif_pos (Or.inl h)]
  rfl

theorem toUpper_ne_minus {c : Char} (h : c ≠ '-') : Char.toUpper c ≠ '-' := by
  intro hu
  apply h
  by_cases hl : (c.toNat ≥ 97 ∧ c.toNat ≤ 122)
  · exfalso
    simp only [Char.toUpper] at hu
    rw [if_pos hl] at hu
    have h45 : (Char.ofNat (c.toNat - 32)).toNat = c.toNat - 32 :=
      char_toNat_ofNat (by omega)
    rw [hu] at h45
    have : (45 : Nat) = c.toNat - 32 := h45
    omega
  · simp only [Char.toUpper] at hu
    rw [if_neg hl] at hu
    exact hu

theorem commaToPeriod_ne_minus {c : Char} (h : c ≠ '-') : commaToPeriod c ≠ '-' := by
  simp only [commaToPeriod]
  split
  · decide
  · exact h

theorem coerceChars_no_minus {cs : List Char} (hm : '-' ∉ cs) : '-' ∉ coerceChars cs := by
  simp only [coerceChars]
  split
  · decide
  · split
    · decide
    · intro hmem
      obtain ⟨c1, hc1, hc1e⟩ := List.mem_map.mp hmem
      obtain ⟨c2, hc2, hc2e⟩ := List.mem_map.mp (List.mem_of_mem_filter hc1)
      have hcne : c2 ≠ '-' := fun h => hm (h ▸ hc2)
      exact commaToPeriod_ne_minus (hc2e ▸ toUpper_ne_minus hcne) hc1e

theorem splitSign_of_no_minus {cs : List Char} (hm : '-' ∉ cs) :
    splitSign cs = (false, cs) := by
  cases cs with
  | nil => rfl
  | cons c rest =>
    simp only [splitSign]
    rw [if_neg (fun h : c = '-' => hm (by rw [← h]; exact List.mem_cons_self c rest))]

theorem parse_nonneg {cs : List Char} (hm : '-' ∉ cs) {q : ℚ}
    (h : parseFloatChars cs = some q) : 0 ≤ q := by
  simp only [parseFloatChars, splitSign_of_no_minus hm] at h
  rcases hs2 : (spanDigits cs).2 with - | ⟨c, rest2⟩ <;> rw [hs2] at h <;> dsimp only at h
  · cases hie : (spanDigits cs).1.isEmpty <;> rw [hie] at h <;> simp at h
    rw [← h]
    exact Nat.cast_nonneg _
  · by_cases hc : c = '.'
    · rw [if_pos hc] at h
      cases hb : ((spanDigits rest2).2.isEmpty
          && !((spanDigits cs).1.isEmpty && (spanDigits rest2).1.isEmpty)) <;>
        rw [hb] at h <;> simp at h
      rw [← h]
      apply Rat.divInt_nonneg <;> positivity
    · rw [if_neg hc] at h
      cases h

theorem coerceNumeric_nonneg (s : String) (hm : '-' ∉ s.data) : 0 ≤ coerceNumeric s := by
  simp only [coerceNumeric]
  cases h : parseFloatChars (coerceChars s.data) with
  | none => simp
  | some q => simpa using parse_nonneg (coerceChars_no_minus hm) h

/-- C3 counterexample: the normalizer maps the stock cell "-5" to the
negative value -5, refuting the claim that every normalized quantity field
is non-negative. -/
theorem c3_nonneg_counterexample :
    (coerceRow 100 minusStockRow).stok = -5 ∧ (coerceRow 100 minusStockRow).stok < 0 := by
  constructor <;> decide

/-- C3 (amended): normalization is total, any cell whose cleaned form fails
to parse coerces to zero, and every quantity/cost field is non-negative
provided its raw cell contains no minus sign (a minus sign in the input is
kept and produces a negative value). -/
theorem c3_fields_amended (pct : ℚ) (r : RawRow)
    (hs : '-' ∉ r.stok.data) (hd : '-' ∉ r.dailySales.data)
    (hmd : '-' ∉ r.maxDailySales.data) (hlt : '-' ∉ r.leadTime.data)
    (hml : '-' ∉ r.maxLeadTime.data) (hmo : '-' ∉ r.minOrder.data)
    (hsp : '-' ∉ r.sedangPO.data) (hh : '-' ∉ r.hpp.data) :
    (0 ≤ (coerceRow pct r).stok ∧ 0 ≤ (coerceRow pct r).dailySales
      ∧ 0 ≤ (coerceRow pct r).maxDailySales ∧ 0 ≤ (coerceRow pct r).leadTime
      ∧ 0 ≤ (coerceRow pct r).maxLeadTime ∧ 0 ≤ (coerceRow pct r).minOrder
      ∧ 0 ≤ (coerceRow pct r).sedangPO ∧ 0 ≤ (coerceRow pct r).hpp)
    ∧ (∀ s : String, parseFloatChars (coerceChars s.data) = none → coerceNumeric s = 0) := by
  refine ⟨⟨coerceNumeric_nonneg _ hs, coerceNumeric_nonneg _ hd, coerceNumeric_nonneg _ hmd,
    coerceNumeric_nonneg _ hlt, coerceNumeric_nonneg _ hml, coerceNumeric_nonneg _ hmo,
    coerceNumeric_nonneg _ hsp, coerceNumeric_nonneg _ hh⟩, ?_⟩
  intro s h
  simp only [coerceNumeric, h, Option.getD_none]

/-- C3 witness: the plain-digit raw row normalizes to non-negative fields. -/
theorem c3_fields_amended_witness :
    (0 ≤ (coerceRow 100 plainDigitsRow).stok ∧ 0 ≤ (coerceRow 100 plainDigitsRow).dailySales
      ∧ 0 ≤ (coerceRow 100 plainDigitsRow).maxDailySales
      ∧ 0 ≤ (coerceRow 100 plainDigitsRow).leadTime
      ∧ 0 ≤ (coerceRow 100 plainDigitsRow).maxLeadTime
      ∧ 0 ≤ (coerceRow 100 plainDigitsRow).minOrder
      ∧ 0 ≤ (coerceRow 100 plainDigitsRow).sedangPO
      ∧ 0 ≤ (coerceRow 100 plainDigitsRow).hpp)
    ∧ (∀ s : String, parseFloatChars (coerceChars s.data) = none → coerceNumeric s = 0) :=
  c3_fields_amended 100 plainDigitsRow (by decide) (by decide) (by decide) (by decide)
    (by decide) (by decide) (by decide) (by decide)

/-! ## Round-trip of the rendering and the coercion (claim C4) -/

def renderCharSet : List Char :=
  ['0', '1', '2', '3', '4', '5', '6', '7', '8', '9', '.', '-']

theorem digitChar10_mem : ∀ d : Nat, digitChar10 d ∈ renderCharSet := by
  intro d
  unfold digitChar10
  split <;> decide

theorem digitChar10_isDigit {d : Nat} (h : d < 10) : (digitChar10 d).isDigit = true := by
  interval_cases d <;> decide

theorem digitChar10_val {d : Nat} (h : d < 10) : (digitChar10 d).toNat - 48 = d := by
  interval_cases d <;> decide

theorem padDigitChars_length (k F : Nat) : (padDigitChars k F).length = k := by
  induction k generalizing F with
  | zero => rfl
  | succ k ih => simp [padDigitChars, ih]

theorem padDigitChars_mem (k F : Nat) : ∀ c ∈ padDigitChars k F, c ∈ renderCharSet := by
  induction k generalizing F with
  | zero => intro c hc; cases hc
  | succ k ih =>
    intro c hc
    rcases List.mem_cons.mp hc with rfl | hc'
    · exact digitChar10_mem _
    · exact ih _ c hc'

theorem padDigitChars_isDigit {k F : Nat} (hF : F < 10 ^ k) :
    ∀ c ∈ padDigitChars k F, c.isDigit = true := by
  induction k generalizing F with
  | zero => intro c hc; cases hc
  | succ k ih =>
    intro c hc
    rcases List.mem_cons.mp hc with rfl | hc'
    · exact digitChar10_isDigit (Nat.div_lt_of_lt_mul (by rw [← pow_succ]; exact hF))
    · exact ih (Nat.mod_lt _ (pow_pos (by norm_num) k)) c hc'

theorem padDigitChars_foldl {k F : Nat} (hF : F < 10 ^ k) (a : Nat) :
    (padDigitChars k F).foldl (fun a c => 10 * a + (c.toNat - 48)) a = a * 10 ^ k + F := by
  induction k generalizing F a with
  | zero =>
    simp [padDigitChars]
    omega
  | succ k ih =>
    have hdiv : F / 10 ^ k < 10 := Nat.div_lt_of_lt_mul (by rw [← pow_succ]; exact hF)
    have hmod : F % 10 ^ k < 10 ^ k := Nat.mod_lt _ (pow_pos (by norm_num) k)
    simp only [padDigitChars, List.foldl_cons]
    rw [digitChar10_val hdiv, ih hmod]
    have hdm : (F / 10 ^ k) * 10 ^ k + F % 10 ^ k = F := by
      rw [mul_comm]
      exact Nat.div_add_mod F (10 ^ k)
    have hsplit : (10 * a + F / 10 ^ k) * 10 ^ k + F % 10 ^ k
        = 10 * a * 10 ^ k + ((F / 10 ^ k) * 10 ^ k + F % 10 ^ k) := by ring
    rw [hsplit, hdm, pow_succ]
    ring

theorem padDigitChars_value {k F : Nat} (hF : F < 10 ^ k) :
    digitsToNat (padDigitChars k F) = F := by
  have := padDigitChars_foldl hF 0
  simpa [digitsToNat] using this

theorem natChars_ne_nil (n : Nat) : natChars n ≠ [] := by
  unfold natChars
  split
  · decide
  · next h =>
    have hlen : (padDigitChars (Nat.digits 10 n).length n).length = (Nat.digits 10 n).length :=
      padDigitChars_length _ _
    intro hnil
    rw [hnil] at hlen
    have : Nat.digits 10 n ≠ [] := Nat.digits_ne_nil_iff_ne_zero.mpr h
    simp at hlen
    exact this (List.length_eq_zero.mp hlen.symm)

theorem natChars_mem (n : Nat) : ∀ c ∈ natChars n, c ∈ renderCharSet := by
  unfold natChars
  split
  · intro c hc
    rcases List.mem_singleton.mp hc with rfl
    decide
  · exact padDigitChars_mem _ _

theorem natChars_isDigit (n : Nat) : ∀ c ∈ natChars n, c.isDigit = true := by
  unfold natChars
  split
  · intro c hc
    rcases List.mem_singleton.mp hc with rfl
    decide
  · exact padDigitChars_isDigit (Nat.lt_base_pow_length_digits (by norm_num))

theorem natChars_value (n : Nat) : digitsToNat (natChars n) = n := by
  unfold natChars
  split
  · next h => rw [h]; decide
  · exact padDigitChars_value (Nat.lt_base_pow_length_digits (by norm_num))

theorem spanDigits_nil_head {rest : List Char}
    (h : ∀ c cs, rest = c :: cs → c.isDigit = false) : spanDigits rest = ([], rest) := by
  cases rest with
  | nil => rfl
  | cons c cs => simp [spanDigits, h c cs rfl]

theorem spanDigits_append (ds rest : List Char) (h1 : ∀ c ∈ ds, c.isDigit = true)
    (h2 : ∀ c cs, rest = c :: cs → c.isDigit = false) :
    spanDigits (ds ++ rest) = (ds, rest) := by
  induction ds with
  | nil => simpa using spanDigits_nil_head h2
  | cons d ds ih =>
    have hd := h1 d (List.mem_cons_self d ds)
    have hih := ih (fun c hc => h1 c (List.mem_cons_of_mem d hc))
    simp [spanDigits, hd, hih]

theorem isDigit_ne_minus {c : Char} (h : c.isDigit = true) : ¬ c = '-' := by
  intro he
  rw [he] at h
  cases h

theorem parse_render {q : ℚ} (hdvd : q.den ∣ 10 ^ q.den) :
    parseFloatChars (renderNum q).data = some q := by
  have hp0 : (0 : ℕ) < 10 ^ q.den := pow_pos (by norm_num) _
  set I := q.num.natAbs * (10 ^ q.den / q.den) / 10 ^ q.den with hI
  set F := q.num.natAbs * (10 ^ q.den / q.den) % 10 ^ q.den with hFdef
  have hF : F < 10 ^ q.den := Nat.mod_lt _ hp0
  have hmd : I * 10 ^ q.den + F = q.num.natAbs * (10 ^ q.den / q.den) := by
    rw [hI, hFdef, mul_comm (q.num.natAbs * (10 ^ q.den / q.den) / 10 ^ q.den)]
    exact Nat.div_add_mod _ _
  set body := natChars I ++ '.' :: padDigitChars q.den F with hbody
  have hrender : (renderNum q).data = (if q.num < 0 then ['-'] else []) ++ body := by
    simp only [renderNum]
    rw [if_pos hdvd]
  have hspan : spanDigits body = (natChars I, '.' :: padDigitChars q.den F) := by
    refine spanDigits_append _ _ (natChars_isDigit I) ?_
    intro c cs hc
    cases hc
    rfl
  have hspan2 : spanDigits (padDigitChars q.den F) = (padDigitChars q.den F, []) := by
    have h := spanDigits_append (padDigitChars q.den F) [] (padDigitChars_isDigit hF)
      (fun c cs h => by cases h)
    simpa using h
  have hne : (natChars I).isEmpty = false := by
    cases hni : natChars I with
    | nil => exact absurd hni (natChars_ne_nil I)
    | cons a b => rfl
  have hval : Rat.divInt
      (digitsToNat (natChars I) * 10 ^ (padDigitChars q.den F).length
        + digitsToNat (padDigitChars q.den F))
      (10 ^ (padDigitChars q.den F).length)
      = Rat.divInt (q.num.natAbs * (10 ^ q.den / q.den)) (10 ^ q.den) := by
    rw [padDigitChars_length, natChars_value, padDigitChars_value hF]
    congr 1
    exact_mod_cast hmd
  have hcancel : (10 ^ q.den / q.den) * q.den = 10 ^ q.den := Nat.div_mul_cancel hdvd
  have hnat : q.num.natAbs * (10 ^ q.den / q.den) * q.den = q.num.natAbs * 10 ^ q.den := by
    rw [mul_assoc, hcancel]
  have habs : Rat.divInt (q.num.natAbs * (10 ^ q.den / q.den)) (10 ^ q.den)
      = Rat.divInt q.num.natAbs q.den := by
    rw [Rat.divInt_eq_div, Rat.divInt_eq_div]
    rw [div_eq_div_iff (by exact_mod_cast hp0.ne') (by exact_mod_cast q.den_nz)]
    exact_mod_cast hnat
  have hq : ((q.num : ℚ)) / (((q.den : ℤ) : ℚ)) = q := by
    exact_mod_cast Rat.num_div_den q
  rcases lt_or_ge q.num 0 with hneg | hpos
  · rw [hrender, if_pos hneg, List.singleton_append]
    have hsp : splitSign ('-' :: body) = (true, body) := by
      simp [splitSign]
    simp only [parseFloatChars, hsp]
    rw [hspan]
    dsimp only
    rw [if_pos rfl, hspan2]
    dsimp only
    simp only [hne, List.isEmpty_nil, Bool.and_false, Bool.false_and, Bool.not_false,
      Bool.and_true, Bool.true_and, if_true]
    rw [hval, habs]
    have hcast : ((q.num.natAbs : ℤ) : ℚ) = ((-q.num : ℤ) : ℚ) :=
      congrArg (fun z : ℤ => (z : ℚ)) (Int.ofNat_natAbs_of_nonpos (le_of_lt hneg))
    have hvq : -(Rat.divInt (q.num.natAbs : ℤ) ((q.den : ℤ))) = q := by
      rw [Rat.divInt_eq_div, hcast]
      push_cast
      rw [neg_div, neg_neg]
      exact_mod_cast hq
    rw [hvq]
  · rw [hrender, if_neg (not_lt.mpr hpos), List.nil_append]
    have hsp : splitSign body = (false, body) := by
      cases hni : natChars I with
      | nil => exact absurd hni (natChars_ne_nil I)
      | cons a b =>
        rw [hbody, hni, List.cons_append]
        simp only [splitSign]
        rw [if_neg]
        have ha : a.isDigit = true :=
          natChars_isDigit I a (by rw [hni]; exact List.mem_cons_self a b)
        exact isDigit_ne_minus ha
    simp only [parseFloatChars, hsp]
    rw [hspan]
    dsimp only
    rw [if_pos rfl, hspan2]
    dsimp only
    simp only [hne, List.isEmpty_nil, Bool.and_false, Bool.false_and, Bool.not_false,
      Bool.and_true, Bool.true_and, if_true]
    rw [hval, habs]
    have hcast : ((q.num.natAbs : ℤ) : ℚ) = ((q.num : ℤ) : ℚ) :=
      congrArg (fun z : ℤ => (z : ℚ)) (Int.natAbs_of_nonneg hpos)
    have hvq : Rat.divInt (q.num.natAbs : ℤ) ((q.den : ℤ)) = q := by
      rw [Rat.divInt_eq_div, hcast]
      exact_mod_cast hq
    rw [hvq]
    simp

theorem renderCharSet_facts : ∀ c ∈ renderCharSet,
    Char.toUpper c = c ∧ keepNumericChar c = true ∧ commaToPeriod c = c := by
  intro c hc
  fin_cases hc <;> exact ⟨by decide, by decide, by decide⟩

theorem map_id_of_mem {α : Type} (l : List α) (f : α → α) (h : ∀ c ∈ l, f c = c) :
    l.map f = l := by
  induction l with
  | nil => rfl
  | cons a tl ih =>
    simp only [List.map_cons, h a (List.mem_cons_self a tl),
      ih (fun c hc => h c (List.mem_cons_of_mem a hc))]

theorem render_not_sentinel (cs : List Char) (hall : ∀ c ∈ cs, c ∈ renderCharSet) :
    sentinelStrings.contains cs = false := by
  cases hc : sentinelStrings.contains cs
  · rfl
  · exfalso
    have hmem : cs ∈ sentinelStrings := by simpa using hc
    fin_cases hmem <;> exact absurd (hall 'N' (by decide)) (by decide)

theorem coerceChars_of_render (cs : List Char) (hall : ∀ c ∈ cs, c ∈ renderCharSet)
    (hne : cs ≠ []) : coerceChars cs = cs := by
  have hupper : cs.map Char.toUpper = cs :=
    map_id_of_mem cs _ (fun c hc => (renderCharSet_facts c (hall c hc)).1)
  have hfilter : cs.filter keepNumericChar = cs :=
    List.filter_eq_self.mpr (fun c hc => (renderCharSet_facts c (hall c hc)).2.1)
  have hcomma : cs.map commaToPeriod = cs :=
    map_id_of_mem cs _ (fun c hc => (renderCharSet_facts c (hall c hc)).2.2)
  have hie : cs.isEmpty = false := by
    cases cs
    · exact absurd rfl hne
    · rfl
  simp only [coerceChars, hupper, render_not_sentinel cs hall, Bool.false_eq_true,
    if_false, hfilter, hcomma, hie]

theorem render_chars (q : ℚ) : ∀ c ∈ (renderNum q).data, c ∈ renderCharSet := by
  simp only [renderNum]
  split
  · intro c hc
    rcases List.mem_append.mp hc with hs | hb
    · split at hs
      · rcases List.mem_singleton.mp hs with rfl
        decide
      · cases hs
    · rcases List.mem_append.mp hb with hn | hp
      · exact natChars_mem _ c hn
      · rcases List.mem_cons.mp hp with rfl | hp'
        · decide
        · exact padDigitChars_mem _ _ c hp'
  · intro c hc
    rcases List.mem_singleton.mp hc with rfl
    decide

theorem render_ne_nil (q : ℚ) : (renderNum q).data ≠ [] := by
  simp only [renderNum]
  split
  · intro h
    rcases List.append_eq_nil.mp h with ⟨-, h2⟩
    rcases List.append_eq_nil.mp h2 with ⟨h3, -⟩
    exact natChars_ne_nil _ h3
  · decide

theorem den_dvd_self_pow {d k : Nat} (hd : d ≠ 0) (h : d ∣ 10 ^ k) : d ∣ 10 ^ d := by
  have h10k : (10 : Nat) ^ k ≠ 0 := pow_ne_zero _ (by norm_num)
  have h10d : (10 : Nat) ^ d ≠ 0 := pow_ne_zero _ (by norm_num)
  rw [← Nat.factorization_le_iff_dvd hd h10d]
  have hle := (Nat.factorization_le_iff_dvd hd h10k).mpr h
  rw [Nat.factorization_pow] at hle ⊢
  intro p
  have hp := hle p
  simp only [Finsupp.smul_apply, smul_eq_mul] at hp ⊢
  rcases Nat.eq_zero_or_pos ((Nat.factorization 10) p) with h0 | hpos
  · rw [h0] at hp ⊢
    omega
  · have hlt : d.factorization p < d := Nat.factorization_lt p hd
    have : d * 1 ≤ d * (Nat.factorization 10) p := Nat.mul_le_mul_left d hpos
    omega

theorem divInt_den_dvd_pow (A : ℤ) (len : Nat) :
    (Rat.divInt A ((10 : ℤ) ^ len)).den ∣ 10 ^ len := by
  have h1 := Rat.den_dvd A ((10 : ℤ) ^ len)
  have h2 : (((Rat.divInt A ((10 : ℤ) ^ len)).den : ℤ)) ∣ ((10 ^ len : Nat) : ℤ) := by
    push_cast
    exact h1
  exact_mod_cast h2

theorem parse_den_pow {cs : List Char} {q : ℚ} (h : parseFloatChars cs = some q) :
    ∃ k, q.den ∣ 10 ^ k := by
  simp only [parseFloatChars] at h
  rcases hs2 : (spanDigits (splitSign cs).2).2 with - | ⟨c, rest2⟩ <;> rw [hs2] at h <;>
    dsimp only at h
  · cases hie : (spanDigits (splitSign cs).2).1.isEmpty <;> rw [hie] at h <;> simp at h
    refine ⟨0, ?_⟩
    rcases hsgn : (splitSign cs).1 <;> rw [hsgn] at h <;> simp at h <;> rw [← h]
    · simp [Rat.den_natCast]
    · simp [Rat.neg_den, Rat.den_natCast]
  · by_cases hc : c = '.'
    · rw [if_pos hc] at h
      cases hb : ((spanDigits rest2).2.isEmpty
          && !((spanDigits (splitSign cs).2).1.isEmpty && (spanDigits rest2).1.isEmpty))
      · rw [hb] at h
        simp at h
      · rw [hb] at h
        rw [if_pos rfl] at h
        injection h with h
        refine ⟨(spanDigits rest2).1.length, ?_⟩
        rcases hsgn : (splitSign cs).1 <;> rw [hsgn] at h
        · rw [if_neg (by simp)] at h
          rw [← h]
          exact divInt_den_dvd_pow _ _
        · rw [if_pos rfl] at h
          rw [← h, Rat.neg_den]
          exact divInt_den_dvd_pow _ _
    · rw [if_neg hc] at h
      cases h

theorem coerceNumeric_den_dvd (s : String) :
    (coerceNumeric s).den ∣ 10 ^ (coerceNumeric s).den := by
  simp only [coerceNumeric]
  cases h : parseFloatChars (coerceChars s.data) with
  | none => decide
  | some q =>
    simp only [Option.getD_some]
    obtain ⟨k, hk⟩ := parse_den_pow h
    exact den_dvd_self_pow q.den_nz hk

/-- C4: the numeric coercion is idempotent: re-applying the coercion to the
plain decimal rendering of an already-coerced value yields the same number,
for every string input. -/
theorem c4_coercion_idempotent (s : String) :
    coerceNumeric (renderNum (coerceNumeric s)) = coerceNumeric s := by
  have hdvd := coerceNumeric_den_dvd s
  have hclean : coerceChars (renderNum (coerceNumeric s)).data
      = (renderNum (coerceNumeric s)).data :=
    coerceChars_of_render _ (render_chars _) (render_ne_nil _)
  have hparse := parse_render hdvd
  calc coerceNumeric (renderNum (coerceNumeric s))
      = (parseFloatChars (coerceChars (renderNum (coerceNumeric s)).data)).getD 0 := rfl
    _ = (parseFloatChars ((renderNum (coerceNumeric s)).data)).getD 0 := by rw [hclean]
    _ = (some (coerceNumeric s)).getD 0 := by rw [hparse]
    _ = coerceNumeric s := rfl
